import Mathlib

/-!
Shallow embedding of the virtual-swiper carousel core: the circular
sliding-window selection over a sequence (src/utils/sliding-window.ts)
and the bullet pagination index mapper (the pagination module), with
theorems checking the specified behaviour against the code.

Numbers are embedded as `Int` (JavaScript integer arithmetic in the
relevant range is exact), array reads that can be undefined return
`Option Int`, and the stateful pagination object becomes an explicit
state record with a step function.
-/

namespace VSwiper

/-- JavaScript array subscript: `source[index]` is the stored element when
`index` is a valid nonnegative position, and undefined otherwise. -/
def jsIndex (source : List Int) (index : Int) : Option Int :=
  if 0 ≤ index then source.get? index.toNat else none

/-- Embedding of `get` from src/utils/sliding-window.ts: array access that
shifts an out-of-range index by a multiple of the length before reading. -/
def get (source : List Int) (index : Int) : Option Int :=
  if source.length = 0 then none
  else
    let isOutOfLowerBounds : Bool := decide (index < 0)
    let isOutOfUpperBounds : Bool := decide ((source.length : Int) - 1 < index)
    let isOutOfBounds : Bool := isOutOfLowerBounds || isOutOfUpperBounds
    let sign : Int := if isOutOfUpperBounds then -1 else 1
    let multiple : Int := ((max (index.natAbs / source.length) 1 : Nat) : Int)
    let index2 : Int := if isOutOfBounds then index + sign * multiple * source.length else index
    jsIndex source index2

/-- Modelled from the spec: the helper `range` from src/utils/utils is not
among the provided sources; per the spec it enumerates the integers from
the first argument to the second inclusive, ascending. -/
def range (a b : Int) : List Int :=
  (List.range (b + 1 - a).toNat).map (fun i : Nat => a + (i : Int))

/-- Embedding of `slidingWindow` from src/utils/sliding-window.ts. -/
def slidingWindow (source : List Int) (start size : Int) : List (Option Int) :=
  let left := (range (start - size) (start - 1)).map (fun index => get source index)
  let center := [jsIndex source start]
  let right := (range (start + 1) (start + size)).map (fun index => get source index)
  left ++ center ++ right

/-- Embedding of `mapActiveIndex` from the pagination module. -/
def mapActiveIndex (index center bullets total : Int) : Int :=
  if total ≤ bullets then index
  else index - max (index - center) 0 + max (index - (-1 + total - center)) 0

/-- Embedding of `isEdgeBullet` from the pagination module. -/
def isEdgeBullet (index realIndex bullets total : Int) : Bool :=
  let isRightEdge : Bool := decide (index = bullets - 1)
  if index = 0 then decide (index ≠ realIndex)
  else if isRightEdge then decide (realIndex + 1 < total)
  else false

/-- Embedding of `getRealIndex` from the pagination module. -/
def getRealIndex (index currentIndex activeBulletIndex : Int) : Int :=
  currentIndex - activeBulletIndex + index

/-- Modelled from the spec: the helper `rewind` from src/utils/utils is not
among the provided sources; per the spec it wraps an index past the edge
back to 0 and an index below 0 back to the edge. -/
def rewind (index edge : Int) : Int :=
  if edge < index then 0
  else if index < 0 then edge
  else index

lemma range_length (a b : Int) : (range a b).length = (b + 1 - a).toNat := by
  rw [range, List.length_map, List.length_range]

lemma jsIndex_of_nonneg (source : List Int) (i : Int) (h : 0 ≤ i) :
    jsIndex source i = source.get? i.toNat := by
  rw [jsIndex, if_pos h]

lemma jsIndex_of_neg (source : List Int) (i : Int) (h : i < 0) :
    jsIndex source i = none := by
  rw [jsIndex, if_neg (by omega)]

lemma get_eq_cases (source : List Int) (index : Int) (h : ¬ source.length = 0) :
    get source index =
      if index < 0 then
        jsIndex source
          (index + ((max (index.natAbs / source.length) 1 : Nat) : Int) * source.length)
      else if (source.length : Int) - 1 < index then
        jsIndex source
          (index - ((max (index.natAbs / source.length) 1 : Nat) : Int) * source.length)
      else jsIndex source index := by
  unfold get
  rw [if_neg h]
  simp only [Bool.or_eq_true, decide_eq_true_eq]
  by_cases h1 : index < 0
  · have h2 : ¬ ((source.length : Int) - 1 < index) := by omega
    rw [if_pos (Or.inl h1), if_neg h2, if_pos h1]
    congr 1
    ring
  · by_cases h2 : (source.length : Int) - 1 < index
    · rw [if_pos (Or.inr h2), if_pos h2, if_neg h1, if_pos h2]
      congr 1
      ring
    · rw [if_neg (by omega : ¬ (index < 0 ∨ (source.length : Int) - 1 < index)),
        if_neg h1, if_neg h2]

/-- C1: slidingWindow returns exactly the five example windows listed in
the spec for the source [1,2,3,4,5]: out-of-range positions wrap
circularly and the window is ordered left-to-right by unwrapped
position. -/
theorem slidingWindow_spec_examples :
    slidingWindow [1, 2, 3, 4, 5] 0 1 = [some 5, some 1, some 2] ∧
    slidingWindow [1, 2, 3, 4, 5] 4 1 = [some 4, some 5, some 1] ∧
    slidingWindow [1, 2, 3, 4, 5] 2 2 = [some 1, some 2, some 3, some 4, some 5] ∧
    slidingWindow [1, 2, 3, 4, 5] 1 2 = [some 5, some 1, some 2, some 3, some 4] ∧
    slidingWindow [1, 2, 3, 4, 5] 4 2 = [some 3, some 4, some 5, some 1, some 2] := by
  decide

/-- C2: for every sequence, every start index and every radius at least 0,
the window returned by slidingWindow has length exactly 2 * radius + 1,
never truncated to the sequence length. -/
theorem slidingWindow_length (source : List Int) (start size : Int) (h : 0 ≤ size) :
    (slidingWindow source start size).length = 2 * size.toNat + 1 := by
  simp only [slidingWindow, List.length_append, List.length_map,
    range_length, List.length_singleton]
  omega

/-- Witness for C2 at source [1,2,3], start 0, radius 1. -/
theorem slidingWindow_length_witness :
    0 ≤ (1 : Int) ∧ (slidingWindow [1, 2, 3] 0 1).length = 2 * (1 : Int).toNat + 1 :=
  ⟨by decide, slidingWindow_length [1, 2, 3] 0 1 (by decide)⟩

lemma mapActiveIndex_range (index center bullets total : Int)
    (htotal : 1 ≤ total) (hbullets : 1 ≤ bullets)
    (hcenter : center = Int.fdiv bullets 2) (hodd : bullets % 2 = 1)
    (h0 : 0 ≤ index) (h1 : index ≤ total - 1) :
    0 ≤ mapActiveIndex index center bullets total ∧
      mapActiveIndex index center bullets total ≤ bullets - 1 := by
  have hc : center = bullets / 2 := by
    rw [hcenter, Int.fdiv_eq_ediv _ (by omega)]
  unfold mapActiveIndex
  split <;> omega

/-- C3: the claim that mapActiveIndex always lands in [0, bulletCount-1]
fails for an even bulletCount: with totalItems = 3, bulletCount = 2,
centerSlot = floor(2 / 2) = 1 and index = 2 the result is 2, outside
[0, 1]. -/
theorem mapActiveIndex_range_counterexample :
    mapActiveIndex 2 (Int.fdiv 2 2) 2 3 = 2 ∧
      ¬ mapActiveIndex 2 (Int.fdiv 2 2) 2 3 ≤ 2 - 1 := by
  decide

/-- C3 (amended): for every totalItems at least 1, every odd bulletCount at
least 1 with centerSlot = floor(bulletCount / 2), and every index in
[0, totalItems-1], mapActiveIndex lies in [0, bulletCount-1]. -/
theorem mapActiveIndex_range_odd (index center bullets total : Int)
    (htotal : 1 ≤ total) (hbullets : 1 ≤ bullets)
    (hcenter : center = Int.fdiv bullets 2) (hodd : bullets % 2 = 1)
    (h0 : 0 ≤ index) (h1 : index ≤ total - 1) :
    0 ≤ mapActiveIndex index center bullets total ∧
      mapActiveIndex index center bullets total ≤ bullets - 1 :=
  mapActiveIndex_range index center bullets total htotal hbullets hcenter hodd h0 h1

/-- Witness for C3 (amended) at index 4, center 2, bullets 5, total 7. -/
theorem mapActiveIndex_range_odd_witness :
    (1 : Int) ≤ 7 ∧ (1 : Int) ≤ 5 ∧ (2 : Int) = Int.fdiv 5 2 ∧ (5 : Int) % 2 = 1 ∧
      (0 : Int) ≤ 4 ∧ (4 : Int) ≤ 7 - 1 ∧
      (0 ≤ mapActiveIndex 4 2 5 7 ∧ mapActiveIndex 4 2 5 7 ≤ 5 - 1) :=
  ⟨by decide, by decide, by decide, by decide, by decide, by decide,
    mapActiveIndex_range_odd 4 2 5 7 (by decide) (by decide) (by decide)
      (by decide) (by decide) (by decide)⟩

/-- C4: the claim fails at bulletCount 1: the single slot 0 is classified
by the left-edge rule of the code (realIndex different from 0), not by
the right-edge rule the claim assigns to slot bulletCount - 1; at
bulletCount = 1, realIndex = 0, totalItems = 5 the code returns false
while the claimed right-edge rule demands true. -/
theorem isEdgeBullet_counterexample :
    ¬ (isEdgeBullet (1 - 1) 0 1 5 = true ↔ (0 : Int) + 1 < 5) := by
  decide

/-- C4 (amended): for every bulletCount n at least 1 and totalItems at
least 1: slot 0 is an edge iff realIndex is not 0; for n at least 2,
slot n-1 is an edge iff realIndex + 1 < totalItems; and every slot
strictly between 0 and n-1 is not an edge. -/
theorem isEdgeBullet_cases (n total realIndex i : Int)
    (hn : 1 ≤ n) (ht : 1 ≤ total) :
    (isEdgeBullet 0 realIndex n total = true ↔ realIndex ≠ 0) ∧
      (2 ≤ n → (isEdgeBullet (n - 1) realIndex n total = true ↔ realIndex + 1 < total)) ∧
      (0 < i → i < n - 1 → isEdgeBullet i realIndex n total = false) := by
  have heq : ∀ index : Int, isEdgeBullet index realIndex n total =
      if index = 0 then decide (index ≠ realIndex)
      else if (decide (index = n - 1) : Bool) = true then decide (realIndex + 1 < total)
      else false := fun _ => rfl
  refine ⟨?_, ?_, ?_⟩
  · rw [heq, if_pos rfl, decide_eq_true_iff]
    exact ne_comm
  · intro h2
    have hne : ¬ ((n : Int) - 1 = 0) := by omega
    rw [heq, if_neg hne, if_pos (decide_eq_true rfl), decide_eq_true_iff]
  · intro hi1 hi2
    have hne0 : ¬ (i = 0) := by omega
    have hner : ¬ (i = n - 1) := by omega
    rw [heq, if_neg hne0, if_neg (fun h => hner (of_decide_eq_true h))]

/-- Witness for C4 (amended) at n = 4, total = 6, realIndex = 2, i = 2. -/
theorem isEdgeBullet_cases_witness :
    (1 : Int) ≤ 4 ∧ (1 : Int) ≤ 6 ∧
      ((isEdgeBullet 0 2 4 6 = true ↔ (2 : Int) ≠ 0) ∧
        (2 ≤ (4 : Int) → (isEdgeBullet (4 - 1) 2 4 6 = true ↔ (2 : Int) + 1 < 6)) ∧
        (0 < (2 : Int) → (2 : Int) < 4 - 1 → isEdgeBullet 2 2 4 6 = false)) :=
  ⟨by decide, by decide, isEdgeBullet_cases 4 6 2 2 (by decide) (by decide)⟩

/-- C10: the claim asserts that for every non-empty source of length N the
index -(N+1) is left negative by the single shift and reads an undefined
value; at N = 1 this is false: get([7], -2) shifts by two lengths and
returns the element 7 rather than an undefined value. -/
theorem get_underflow_counterexample : get [7] (-2) = some 7 := by
  decide

/-- C10 (amended): for every non-empty source of length N, get agrees with
reading at index mod N whenever the index is at least -N (any magnitude
above); and for every source of length N at least 2, the index -(N+1) is
left negative by the single shift, so get reads an undefined value. -/
theorem get_wrap_characterization (source : List Int) (index : Int)
    (h1 : 1 ≤ source.length) :
    (-(source.length : Int) ≤ index →
      get source index = source.get? (index % (source.length : Int)).toNat) ∧
      (2 ≤ source.length → get source (-(source.length : Int) - 1) = none) := by
  have hne : ¬ source.length = 0 := by omega
  have hNpos : (0 : Int) < (source.length : Int) := by exact_mod_cast Nat.pos_of_ne_zero hne
  constructor
  · intro hge
    rw [get_eq_cases source index hne]
    by_cases hlow : index < 0
    · rw [if_pos hlow]
      have habs : index.natAbs ≤ source.length := by omega
      have hdiv : index.natAbs / source.length ≤ 1 := by
        calc index.natAbs / source.length ≤ source.length / source.length :=
              Nat.div_le_div_right habs
          _ = 1 := Nat.div_self (Nat.pos_of_ne_zero hne)
      rw [max_eq_right hdiv]
      have hmod : index % (source.length : Int) = index + source.length := by
        have e1 : (index + (source.length : Int) * 1) % (source.length : Int) =
            index % (source.length : Int) :=
          Int.add_mul_emod_self_left index (source.length : Int) 1
        rw [mul_one] at e1
        have e2 : (index + (source.length : Int)) % (source.length : Int) =
            index + (source.length : Int) := Int.emod_eq_of_lt (by omega) (by omega)
        omega
      simp only [Nat.cast_one, one_mul]
      rw [jsIndex_of_nonneg source _ (by omega), hmod]
    · by_cases hup : (source.length : Int) - 1 < index
      · rw [if_neg hlow, if_pos hup]
        have hN : source.length ≤ index.natAbs := by omega
        have hdiv1 : 1 ≤ index.natAbs / source.length := by
          have h' : source.length / source.length ≤ index.natAbs / source.length :=
            Nat.div_le_div_right hN
          rw [Nat.div_self (Nat.pos_of_ne_zero hne)] at h'
          exact h'
        rw [max_eq_left hdiv1]
        have hcast : ((index.natAbs / source.length : Nat) : Int) =
            index / (source.length : Int) := by
          rw [Int.ofNat_ediv, Int.natAbs_of_nonneg (by omega : (0 : Int) ≤ index)]
        have harith : index - index / (source.length : Int) * (source.length : Int) =
            index % (source.length : Int) := by
          have h := Int.ediv_add_emod index (source.length : Int)
          linear_combination -h
        rw [hcast, harith, jsIndex_of_nonneg source _ (Int.emod_nonneg index (by omega))]
      · rw [if_neg hlow, if_neg hup, jsIndex_of_nonneg source index (by omega),
          Int.emod_eq_of_lt (by omega) (by omega)]
  · intro h2
    rw [get_eq_cases source _ hne]
    rw [if_pos (by omega : -(source.length : Int) - 1 < 0)]
    have habs : (-(source.length : Int) - 1).natAbs = source.length + 1 := by omega
    have hdiv : (source.length + 1) / source.length = 1 :=
      Nat.div_eq_of_lt_le (by omega) (by omega)
    rw [habs, hdiv, max_self]
    simp only [Nat.cast_one, one_mul]
    rw [jsIndex_of_neg source _ (by omega)]

/-- Witness for C10 (amended) at source [10, 20], index -2. -/
theorem get_wrap_characterization_witness :
    1 ≤ [(10 : Int), 20].length ∧
      ((-([(10 : Int), 20].length : Int) ≤ -2 →
        get [10, 20] (-2) = [(10 : Int), 20].get? ((-2) % ([(10 : Int), 20].length : Int)).toNat) ∧
        (2 ≤ [(10 : Int), 20].length → get [10, 20] (-([(10 : Int), 20].length : Int) - 1) = none)) :=
  ⟨by decide, get_wrap_characterization [10, 20] (-2) (by decide)⟩

lemma mapActiveIndex_of_le (index center bullets total : Int) (h : total ≤ bullets) :
    mapActiveIndex index center bullets total = index := by
  simp [mapActiveIndex, h]

/-- C9: whenever bulletCount is at least totalItems, mapActiveIndex is the
identity on the index, for every index and center. -/
theorem mapActiveIndex_identity (index center bullets total : Int)
    (h : total ≤ bullets) :
    mapActiveIndex index center bullets total = index :=
  mapActiveIndex_of_le index center bullets total h

/-- Witness for C9 at index 3, center 2, bullets 5, total 5. -/
theorem mapActiveIndex_identity_witness :
    (5 : Int) ≤ 5 ∧ mapActiveIndex 3 2 5 5 = 3 :=
  ⟨by decide, mapActiveIndex_identity 3 2 5 5 (by decide)⟩

/-- State of the Pagination object: the mutable `_currentIndex` and
`_isActive` together with the construction-time constants, plus the
number of bullet elements currently in the DOM strip. -/
@[ext]
structure PgState where
  currentIndex : Int
  totalSlides : Int
  bulletsLength : Int
  centerIndex : Int
  isActive : Bool
  stripLen : Nat
deriving DecidableEq, Repr

/-- Embedding of the Pagination constructor: currentIndex starts at 0,
bulletsLength = min(totalSlides, bullets option), centerIndex =
floor(bulletsLength / 2); no bullets exist before render. -/
def mkState (total bullets : Int) (isActive : Bool) : PgState :=
  { currentIndex := 0
    totalSlides := total
    bulletsLength := min total bullets
    centerIndex := Int.fdiv (min total bullets) 2
    isActive := isActive
    stripLen := 0 }

/-- Embedding of Pagination.render: quits early (forcing isActive to
false, creating no bullets) when inactive or fewer than 2 slides;
otherwise creates one bullet per element of
range(0, min(bulletsLength, totalSlides) - 1). -/
def render (s : PgState) : PgState :=
  if s.isActive = false ∨ s.totalSlides < 2 then { s with isActive := false }
  else { s with stripLen := (range 0 (min s.bulletsLength s.totalSlides - 1)).length }

/-- The values Pagination._goTo computes after its isActive guard: the
wrapped new current index, the mapped active bullet index, the eviction
decision and the evicted slot index (-1 when no eviction). -/
structure GoToStep where
  newIndex : Int
  mapped : Int
  removeBullet : Bool
  removeBulletIndex : Int
deriving DecidableEq, Repr

/-- Embedding of the computation part of Pagination._goTo. -/
def goToCompute (s : PgState) (sign : Int) : GoToStep :=
  let currentIndex := rewind (s.currentIndex + sign) (s.totalSlides - 1)
  let mappedActiveIndex :=
    mapActiveIndex currentIndex s.centerIndex s.bulletsLength s.totalSlides
  let overflowRight : Bool :=
    decide (currentIndex + s.centerIndex + (if 0 < sign then 0 else 1) < s.totalSlides)
  let overflowLeft : Bool := decide (0 < currentIndex - s.centerIndex)
  let removeBullet : Bool :=
    decide (mappedActiveIndex = s.centerIndex) &&
      (if 0 < sign then overflowLeft else overflowRight)
  let removeBulletIndex : Int :=
    if removeBullet then (if sign = 1 then 0 else s.bulletsLength - 1) else -1
  { newIndex := currentIndex
    mapped := mappedActiveIndex
    removeBullet := removeBullet
    removeBulletIndex := removeBulletIndex }

/-- Embedding of Pagination._goTo on the state: a no-op when inactive;
otherwise the current index is rewound into range. A removal is always
paired with an insertion, so the strip length never changes. -/
def goTo (s : PgState) (sign : Int) : PgState :=
  if s.isActive = false then s
  else { s with currentIndex := (goToCompute s sign).newIndex }

/-- Iterated next() calls. -/
def advanceN (s : PgState) : Nat → PgState
  | 0 => s
  | k + 1 => goTo (advanceN s k) 1

/-- The real indices represented by the bullet strip: slot i represents
getRealIndex(i, currentIndex, activeBulletIndex) where the active slot
is mapActiveIndex of the current index (the spec derives the real index
of a slot from its position and the active slot; it is not stored). -/
def stripRealIndices (s : PgState) : List Int :=
  (List.range s.stripLen).map
    (fun i : Nat => getRealIndex (i : Int) s.currentIndex
      (mapActiveIndex s.currentIndex s.centerIndex s.bulletsLength s.totalSlides))

/-- Pagination states reachable from construction followed by render and
any sequence of next and prev calls. -/
inductive Reachable : PgState → Prop
  | base (total bullets : Int) (isActive : Bool) : Reachable (render (mkState total bullets isActive))
  | next (s : PgState) : Reachable s → Reachable (goTo s 1)
  | prev (s : PgState) : Reachable s → Reachable (goTo s (-1))

/-- Invariant of every reachable active pagination state. -/
def StateInv (s : PgState) : Prop :=
  s.isActive = true →
    2 ≤ s.totalSlides ∧ 0 ≤ s.currentIndex ∧ s.currentIndex ≤ s.totalSlides - 1 ∧
      s.bulletsLength ≤ s.totalSlides ∧ s.stripLen = s.bulletsLength.toNat ∧
      s.centerIndex = Int.fdiv s.bulletsLength 2

lemma rewind_bounds (index edge : Int) (h : 0 ≤ edge) :
    0 ≤ rewind index edge ∧ rewind index edge ≤ edge := by
  unfold rewind
  split_ifs <;> omega

lemma goTo_fields (s : PgState) (sign : Int) :
    (goTo s sign).totalSlides = s.totalSlides ∧
      (goTo s sign).bulletsLength = s.bulletsLength ∧
      (goTo s sign).centerIndex = s.centerIndex ∧
      (goTo s sign).isActive = s.isActive ∧
      (goTo s sign).stripLen = s.stripLen := by
  unfold goTo
  split <;> simp

lemma goTo_ci (s : PgState) (sign : Int) (h : s.isActive = true) :
    (goTo s sign).currentIndex = rewind (s.currentIndex + sign) (s.totalSlides - 1) := by
  unfold goTo
  rw [if_neg (by simp [h])]
  rfl

lemma reachable_inv (s : PgState) (h : Reachable s) : StateInv s := by
  induction h with
  | base total bullets act =>
      intro ha
      by_cases hcond : (mkState total bullets act).isActive = false ∨
        (mkState total bullets act).totalSlides < 2
      · rw [render, if_pos hcond] at ha
        simp [mkState] at ha
      · rw [render, if_neg hcond] at ha ⊢
        push_neg at hcond
        simp only [mkState] at hcond
        refine ⟨?_, ?_, ?_, ?_, ?_, ?_⟩ <;>
          simp only [mkState, range_length] <;> first | rfl | omega
  | next s' hs ih =>
      intro ha
      have hf := goTo_fields s' 1
      have ha' : s'.isActive = true := by rw [← hf.2.2.2.1]; exact ha
      obtain ⟨h2, hc0, hc1, hbt, hsl, hcen⟩ := ih ha'
      have hr := rewind_bounds (s'.currentIndex + 1) (s'.totalSlides - 1) (by omega)
      rw [goTo_ci s' 1 ha'] at *
      exact ⟨hf.1 ▸ h2, hr.1, by rw [hf.1]; exact hr.2, by rw [hf.2.1, hf.1]; exact hbt,
        by rw [hf.2.2.2.2, hf.2.1]; exact hsl, by rw [hf.2.2.1, hf.2.1]; exact hcen⟩
  | prev s' hs ih =>
      intro ha
      have hf := goTo_fields s' (-1)
      have ha' : s'.isActive = true := by rw [← hf.2.2.2.1]; exact ha
      obtain ⟨h2, hc0, hc1, hbt, hsl, hcen⟩ := ih ha'
      have hr := rewind_bounds (s'.currentIndex + (-1)) (s'.totalSlides - 1) (by omega)
      rw [goTo_ci s' (-1) ha'] at *
      exact ⟨hf.1 ▸ h2, hr.1, by rw [hf.1]; exact hr.2, by rw [hf.2.1, hf.1]; exact hbt,
        by rw [hf.2.2.2.2, hf.2.1]; exact hsl, by rw [hf.2.2.1, hf.2.1]; exact hcen⟩

lemma current_mem_strip (s : PgState) (hinv : StateInv s) (ha : s.isActive = true)
    (hb : (s.bulletsLength % 2 = 1 ∧ 1 ≤ s.bulletsLength) ∨ s.totalSlides ≤ s.bulletsLength) :
    s.currentIndex ∈ stripRealIndices s := by
  obtain ⟨h2, hc0, hc1, hbt, hsl, hcen⟩ := hinv ha
  have hrange : 0 ≤ mapActiveIndex s.currentIndex s.centerIndex s.bulletsLength s.totalSlides ∧
      mapActiveIndex s.currentIndex s.centerIndex s.bulletsLength s.totalSlides ≤
        s.bulletsLength - 1 := by
    by_cases hbig : s.totalSlides ≤ s.bulletsLength
    · rw [mapActiveIndex_of_le _ _ _ _ hbig]
      omega
    · rcases hb with ⟨hodd, hb1⟩ | hge
      · exact mapActiveIndex_range _ _ _ _ (by omega) hb1 hcen hodd hc0 hc1
      · omega
  unfold stripRealIndices
  refine List.mem_map.mpr
    ⟨(mapActiveIndex s.currentIndex s.centerIndex s.bulletsLength s.totalSlides).toNat,
      List.mem_range.mpr (by omega), ?_⟩
  unfold getRealIndex
  rw [Int.toNat_of_nonneg hrange.1]
  ring

lemma advanceN_fields (s : PgState) (k : Nat) :
    (advanceN s k).totalSlides = s.totalSlides ∧
      (advanceN s k).bulletsLength = s.bulletsLength ∧
      (advanceN s k).centerIndex = s.centerIndex ∧
      (advanceN s k).isActive = s.isActive ∧
      (advanceN s k).stripLen = s.stripLen := by
  induction k with
  | zero => exact ⟨rfl, rfl, rfl, rfl, rfl⟩
  | succ k ih =>
      have hf := goTo_fields (advanceN s k) 1
      exact ⟨hf.1.trans ih.1, hf.2.1.trans ih.2.1, hf.2.2.1.trans ih.2.2.1,
        hf.2.2.2.1.trans ih.2.2.2.1, hf.2.2.2.2.trans ih.2.2.2.2⟩

lemma advanceN_reachable (s : PgState) (k : Nat) (h : Reachable s) :
    Reachable (advanceN s k) := by
  induction k with
  | zero => exact h
  | succ k ih => exact Reachable.next _ ih

lemma rewind_emod (x T : Int) (hT : 2 ≤ T) (hx0 : 0 ≤ x) (hx1 : x < T) :
    rewind (x + 1) (T - 1) = (x + 1) % T := by
  unfold rewind
  split_ifs with hA hB
  · have hx : x = T - 1 := by omega
    rw [hx, show (T - 1 + 1 : Int) = T by ring, Int.emod_self]
  · omega
  · rw [Int.emod_eq_of_lt (by omega) (by omega)]

lemma advanceN_ci (s : PgState) (k : Nat) (ha : s.isActive = true)
    (h2 : 2 ≤ s.totalSlides) (hc0 : 0 ≤ s.currentIndex)
    (hc1 : s.currentIndex < s.totalSlides) :
    (advanceN s k).currentIndex = (s.currentIndex + (k : Int)) % s.totalSlides := by
  induction k with
  | zero =>
      show s.currentIndex = (s.currentIndex + ((0 : Nat) : Int)) % s.totalSlides
      rw [Nat.cast_zero, add_zero, Int.emod_eq_of_lt hc0 hc1]
  | succ k ih =>
      have hf := advanceN_fields s k
      have hact : (advanceN s k).isActive = true := hf.2.2.2.1.trans ha
      show (goTo (advanceN s k) 1).currentIndex = _
      rw [goTo_ci _ 1 hact, ih, hf.1,
        rewind_emod _ _ h2 (Int.emod_nonneg _ (by omega)) (Int.emod_lt_of_pos _ (by omega)),
        Int.emod_add_emod]
      congr 1
      push_cast
      ring

/-- C5: in every advance step with sign in {-1, +1}, after the current
index is circularly advanced, a bullet is evicted exactly when the
mapped active index equals the center slot and, for sign +1, the new
current index minus the center slot is positive, while for sign -1,
the new current index plus the center slot plus 1 is below totalItems;
the evicted slot is 0 for sign +1 and bulletCount - 1 for sign -1. -/
theorem goTo_eviction_rule (s : PgState) (sign : Int) (hs : sign = 1 ∨ sign = -1) :
    ((goToCompute s sign).removeBullet = true ↔
      ((goToCompute s sign).mapped = s.centerIndex ∧
        (if sign = 1 then 0 < (goToCompute s sign).newIndex - s.centerIndex
         else (goToCompute s sign).newIndex + s.centerIndex + 1 < s.totalSlides))) ∧
      ((goToCompute s sign).removeBullet = true →
        (goToCompute s sign).removeBulletIndex =
          if sign = 1 then 0 else s.bulletsLength - 1) := by
  rcases hs with h | h <;> subst h <;>
    constructor <;>
    simp [goToCompute, Bool.and_eq_true, decide_eq_true_eq] <;>
    omega

/-- Witness for C5 at a concrete state with sign +1. -/
theorem goTo_eviction_rule_witness :
    ((1 : Int) = 1 ∨ (1 : Int) = -1) ∧
      (((goToCompute ⟨2, 9, 5, 2, true, 5⟩ 1).removeBullet = true ↔
        ((goToCompute ⟨2, 9, 5, 2, true, 5⟩ 1).mapped = (⟨2, 9, 5, 2, true, 5⟩ : PgState).centerIndex ∧
          (if (1 : Int) = 1 then
            0 < (goToCompute ⟨2, 9, 5, 2, true, 5⟩ 1).newIndex - (⟨2, 9, 5, 2, true, 5⟩ : PgState).centerIndex
           else (goToCompute ⟨2, 9, 5, 2, true, 5⟩ 1).newIndex +
              (⟨2, 9, 5, 2, true, 5⟩ : PgState).centerIndex + 1 <
                (⟨2, 9, 5, 2, true, 5⟩ : PgState).totalSlides))) ∧
        ((goToCompute ⟨2, 9, 5, 2, true, 5⟩ 1).removeBullet = true →
          (goToCompute ⟨2, 9, 5, 2, true, 5⟩ 1).removeBulletIndex =
            if (1 : Int) = 1 then 0 else (⟨2, 9, 5, 2, true, 5⟩ : PgState).bulletsLength - 1)) :=
  ⟨Or.inl rfl, goTo_eviction_rule ⟨2, 9, 5, 2, true, 5⟩ 1 (Or.inl rfl)⟩

/-- C6: the claim fails on an even bullet count: from construction with
3 slides and 2 bullets, after two next() calls the current index is 2
but the strip represents only the real indices 0 and 1 (the mapped
active index 2 falls outside the strip), so the strip does not contain
the current index. -/
theorem pagination_strip_counterexample :
    Reachable (goTo (goTo (render (mkState 3 2 true)) 1) 1) ∧
      2 ≤ (goTo (goTo (render (mkState 3 2 true)) 1) 1).totalSlides ∧
      ¬ ((goTo (goTo (render (mkState 3 2 true)) 1) 1).currentIndex ∈
          stripRealIndices (goTo (goTo (render (mkState 3 2 true)) 1) 1)) :=
  ⟨Reachable.next _ (Reachable.next _ (Reachable.base 3 2 true)), by decide, by decide⟩

/-- C6 (amended): from every reachable active pagination state with at
least 2 slides whose bullet count is odd (and positive) or at least the
slide count, advancing totalItems times returns the current index to
its start, and after any number of steps the strip of real indices
contains the current index. -/
theorem pagination_cycle_and_strip (s : PgState) (k : Nat) (h : Reachable s)
    (h2 : 2 ≤ s.totalSlides) (ha : s.isActive = true)
    (hb : (s.bulletsLength % 2 = 1 ∧ 1 ≤ s.bulletsLength) ∨ s.totalSlides ≤ s.bulletsLength) :
    (advanceN s s.totalSlides.toNat).currentIndex = s.currentIndex ∧
      (advanceN s k).currentIndex ∈ stripRealIndices (advanceN s k) := by
  obtain ⟨h2', hc0, hc1, hbt, hsl, hcen⟩ := reachable_inv s h ha
  constructor
  · rw [advanceN_ci s _ ha h2 hc0 (by omega),
      Int.toNat_of_nonneg (by omega : (0 : Int) ≤ s.totalSlides)]
    have e1 : (s.currentIndex + s.totalSlides * 1) % s.totalSlides =
        s.currentIndex % s.totalSlides :=
      Int.add_mul_emod_self_left s.currentIndex s.totalSlides 1
    rw [mul_one] at e1
    rw [e1, Int.emod_eq_of_lt hc0 (by omega)]
  · have hf := advanceN_fields s k
    apply current_mem_strip _ (reachable_inv _ (advanceN_reachable s k h))
    · rw [hf.2.2.2.1]
      exact ha
    · rw [hf.2.1, hf.1]
      exact hb

/-- Witness for C6 (amended) at the rendered state with 5 slides and 5
bullets, k = 2 steps. -/
theorem pagination_cycle_and_strip_witness :
    Reachable (render (mkState 5 5 true)) ∧
      2 ≤ (render (mkState 5 5 true)).totalSlides ∧
      (render (mkState 5 5 true)).isActive = true ∧
      (((render (mkState 5 5 true)).bulletsLength % 2 = 1 ∧
          1 ≤ (render (mkState 5 5 true)).bulletsLength) ∨
        (render (mkState 5 5 true)).totalSlides ≤ (render (mkState 5 5 true)).bulletsLength) ∧
      ((advanceN (render (mkState 5 5 true)) (render (mkState 5 5 true)).totalSlides.toNat).currentIndex =
          (render (mkState 5 5 true)).currentIndex ∧
        (advanceN (render (mkState 5 5 true)) 2).currentIndex ∈
          stripRealIndices (advanceN (render (mkState 5 5 true)) 2)) :=
  ⟨Reachable.base 5 5 true, by decide, by decide, Or.inl (by decide),
    pagination_cycle_and_strip (render (mkState 5 5 true)) 2 (Reachable.base 5 5 true)
      (by decide) (by decide) (Or.inl (by decide))⟩

/-- C7: from every reachable pagination state with at least 2 slides, a
next() immediately followed by a prev() restores the current index and
the strip of represented real indices. -/
theorem pagination_advance_inverse (s : PgState) (h : Reachable s)
    (h2 : 2 ≤ s.totalSlides) :
    (goTo (goTo s 1) (-1)).currentIndex = s.currentIndex ∧
      stripRealIndices (goTo (goTo s 1) (-1)) = stripRealIndices s := by
  by_cases ha : s.isActive = true
  · obtain ⟨h2', hc0, hc1, hbt, hsl, hcen⟩ := reachable_inv s h ha
    have hf1 := goTo_fields s 1
    have hf2 := goTo_fields (goTo s 1) (-1)
    have ha1 : (goTo s 1).isActive = true := hf1.2.2.2.1.trans ha
    have hci : (goTo (goTo s 1) (-1)).currentIndex = s.currentIndex := by
      rw [goTo_ci _ _ ha1, goTo_ci _ _ ha, hf1.1]
      unfold rewind
      split_ifs <;> omega
    have hstate : goTo (goTo s 1) (-1) = s := by
      ext
      · exact hci
      · exact hf2.1.trans hf1.1
      · exact hf2.2.1.trans hf1.2.1
      · exact hf2.2.2.1.trans hf1.2.2.1
      · rw [hf2.2.2.2.1, hf1.2.2.2.1]
      · exact hf2.2.2.2.2.trans hf1.2.2.2.2
    rw [hstate]
    exact ⟨rfl, rfl⟩
  · have hna : s.isActive = false := by
      cases hB : s.isActive
      · rfl
      · exact absurd hB ha
    have e1 : goTo s 1 = s := by
      unfold goTo
      rw [if_pos hna]
    have e2 : goTo s (-1) = s := by
      unfold goTo
      rw [if_pos hna]
    rw [e1, e2]
    exact ⟨rfl, rfl⟩

/-- Witness for C7 at the rendered state with 3 slides and 5 bullets. -/
theorem pagination_advance_inverse_witness :
    Reachable (render (mkState 3 5 true)) ∧
      2 ≤ (render (mkState 3 5 true)).totalSlides ∧
      ((goTo (goTo (render (mkState 3 5 true)) 1) (-1)).currentIndex =
          (render (mkState 3 5 true)).currentIndex ∧
        stripRealIndices (goTo (goTo (render (mkState 3 5 true)) 1) (-1)) =
          stripRealIndices (render (mkState 3 5 true))) :=
  ⟨Reachable.base 3 5 true, by decide,
    pagination_advance_inverse (render (mkState 3 5 true)) (Reachable.base 3 5 true) (by decide)⟩

/-- C8: with fewer than 2 slides, pagination is inactive: render creates
no bullets and every subsequent advance call is a no-op leaving the
whole state, including currentIndex, unchanged. -/
theorem pagination_inactive_noop (total bullets : Int) (act : Bool) (sign : Int)
    (h : total < 2) :
    (render (mkState total bullets act)).stripLen = 0 ∧
      goTo (render (mkState total bullets act)) sign = render (mkState total bullets act) := by
  have hcond : (mkState total bullets act).isActive = false ∨
      (mkState total bullets act).totalSlides < 2 := Or.inr h
  constructor
  · rw [render, if_pos hcond]
    rfl
  · rw [render, if_pos hcond]
    unfold goTo
    rw [if_pos rfl]

/-- Witness for C8 at 1 slide, 5 bullets, active option, sign +1. -/
theorem pagination_inactive_noop_witness :
    (1 : Int) < 2 ∧
      ((render (mkState 1 5 true)).stripLen = 0 ∧
        goTo (render (mkState 1 5 true)) 1 = render (mkState 1 5 true)) :=
  ⟨by decide, pagination_inactive_noop 1 5 true 1 (by decide)⟩

end VSwiper
